import Mathlib

/-!
Verification development for the skybook events handler: a small HTTP
ingestion service whose core is a validate-then-persist request handler.

The embedding models JSON values, the two validator variants found in the
source, the persister `saveData` (file-system effects made explicit as a
record of directories and files threaded through the function), the request
handler `processRequest` composed with the central `errorHandler`, and the
environment/configuration helpers `getEnvVar` and `getPort`.

JavaScript runtime behaviour that the source relies on (typeof, truthiness,
`String.prototype.trim`, `parseInt`, `JSON.stringify(·, null, 2)`,
`Date#toLocaleDateString('en-GB')`, `JSON.parse`) is modelled explicitly
below, each next to the definition that uses it.
-/

/-- JSON values as delivered by `express.json()` to the handler: the request
body is an arbitrary JSON value. Numbers are modelled as integers. -/
inductive Json where
  | null : Json
  | bool : Bool → Json
  | num : Int → Json
  | str : String → Json
  | arr : List Json → Json
  | obj : List (String × Json) → Json

/-- Characters treated as white space by JavaScript (`WhiteSpace` and
`LineTerminator` in ECMA-262), as used by `String.prototype.trim`. -/
def jsIsWhitespace (c : Char) : Bool :=
  c.toNat == 9 || c.toNat == 10 || c.toNat == 11 || c.toNat == 12 || c.toNat == 13 ||
  c.toNat == 32 || c.toNat == 0xa0 || c.toNat == 0x1680 ||
  (decide (0x2000 <= c.toNat) && decide (c.toNat <= 0x200a)) ||
  c.toNat == 0x2028 || c.toNat == 0x2029 || c.toNat == 0x202f ||
  c.toNat == 0x205f || c.toNat == 0x3000 || c.toNat == 0xfeff

/-- Model of `String.prototype.trim`: remove leading and trailing
JavaScript white space. -/
def jsTrim (s : String) : String :=
  String.mk (((s.data.dropWhile jsIsWhitespace).reverse.dropWhile jsIsWhitespace).reverse)

/-- JavaScript property lookup on an object literal's field list: first
matching key (keys of a JavaScript object are unique, so the choice is
immaterial on values that arise at runtime). -/
def lookupField : List (String × Json) → String → Option Json
  | [], _ => none
  | (k, v) :: rest, key => if k = key then some v else lookupField rest key

/-- Model of JavaScript property access `data[key]`: `none` stands for
`undefined`. JSON arrays, primitives and `null` carry no string-keyed
properties of interest, so access on them yields `undefined`. -/
def getField : Json → String → Option Json
  | Json.obj fields, key => lookupField fields key
  | _, _ => none

/-- Model of the JavaScript test `typeof x === 'object'`: true for `null`
(a quirk of `typeof`), arrays and objects; false for booleans, numbers and
strings. -/
def jsIsObjectType : Json → Bool
  | Json.null => true
  | Json.arr _ => true
  | Json.obj _ => true
  | _ => false

/-- Model of the JavaScript test `x === null`. -/
def jsIsNull : Json → Bool
  | Json.null => true
  | _ => false

/-- Embedding of `src/validateData.ts` (the current validator, variant (b)):
rejects anything that is not of object type or is `null`, then requires the
destructured `url` property to be a string whose trimmed form is non-empty. -/
def validateData (data : Json) : Bool :=
  if !jsIsObjectType data || jsIsNull data then
    false
  else
    match getField data "url" with
    | some (Json.str url) => decide (0 < (jsTrim url).length)
    | _ => false

/-- Embedding of the historical validator (variant (a)) found alongside the
server source: `typeof data === 'object' && data !== null`. -/
def validateDataVariantA (data : Json) : Bool :=
  jsIsObjectType data && !jsIsNull data

/-! ## Serialization: model of `JSON.stringify(data, null, 2)` -/

/-- Decimal digit character for a digit value below ten. -/
def digitChar10 : Nat → Char
  | 0 => '0' | 1 => '1' | 2 => '2' | 3 => '3' | 4 => '4'
  | 5 => '5' | 6 => '6' | 7 => '7' | 8 => '8' | _ => '9'

/-- Numeric value of a decimal digit character. -/
def digitVal10 (c : Char) : Nat := c.toNat - 48

/-- Test for a decimal digit character. -/
def isDig (c : Char) : Bool := decide (48 <= c.toNat) && decide (c.toNat <= 57)

/-- Fuel-driven digit expansion of a natural number, most significant
digit first; the fuel always suffices because `natChars` passes `n + 1`. -/
def natCharsAux : Nat → Nat → List Char
  | 0, _ => []
  | fuel + 1, n =>
      if n < 10 then [digitChar10 n]
      else natCharsAux fuel (n / 10) ++ [digitChar10 (n % 10)]

/-- Decimal representation of a natural number, most significant digit
first, as produced by JavaScript `Number#toString` on integral values. -/
def natChars (n : Nat) : List Char := natCharsAux (n + 1) n

/-- Decimal representation of an integer. -/
def numChars (i : Int) : List Char :=
  if i < 0 then '-' :: natChars i.natAbs else natChars i.toNat

/-- Value of a list of decimal digit characters, most significant first. -/
def digitsToNat (cs : List Char) : Nat := cs.foldl (fun a c => 10 * a + digitVal10 c) 0

/-- Lower-case hexadecimal digit character, as emitted by
`JSON.stringify` in `\uXXXX` escapes. -/
def hexDigit : Nat → Char
  | 0 => '0' | 1 => '1' | 2 => '2' | 3 => '3' | 4 => '4'
  | 5 => '5' | 6 => '6' | 7 => '7' | 8 => '8' | 9 => '9'
  | 10 => 'a' | 11 => 'b' | 12 => 'c' | 13 => 'd' | 14 => 'e' | _ => 'f'

/-- Escaping of one character inside a JSON string literal, following
ECMA-262 `QuoteJSONString`: quote and backslash are escaped, the control
characters with short forms use them, other control characters use
`\u00XX`, and everything else stands for itself. -/
def escapeChar (c : Char) : List Char :=
  if c = '"' then ['\\', '"']
  else if c = '\\' then ['\\', '\\']
  else if c.toNat = 8 then ['\\', 'b']
  else if c.toNat = 9 then ['\\', 't']
  else if c.toNat = 10 then ['\\', 'n']
  else if c.toNat = 12 then ['\\', 'f']
  else if c.toNat = 13 then ['\\', 'r']
  else if c.toNat < 32 then ['\\', 'u', '0', '0', hexDigit (c.toNat / 16), hexDigit (c.toNat % 16)]
  else [c]

/-- Escaping of a character sequence inside a JSON string literal. -/
def escapeList (cs : List Char) : List Char := (cs.map escapeChar).flatten

/-- A quoted JSON string literal. -/
def quoteChars (s : String) : List Char := '"' :: (escapeList s.data ++ ['"'])

/-- Indentation: `n` space characters. -/
def nSpaces (n : Nat) : List Char := List.replicate n ' '

mutual

/-- Model of ECMA-262 `JSON.stringify(v, null, 2)` at nesting indentation
`ind`: non-empty arrays and objects open with a newline, indent their
entries by two further spaces, separate them with a comma and newline, and
close on a fresh line at the enclosing indentation. -/
def stringifyChars : Nat → Json → List Char
  | _, Json.null => ['n', 'u', 'l', 'l']
  | _, Json.bool true => ['t', 'r', 'u', 'e']
  | _, Json.bool false => ['f', 'a', 'l', 's', 'e']
  | _, Json.num i => numChars i
  | _, Json.str s => quoteChars s
  | _, Json.arr [] => ['[', ']']
  | ind, Json.arr (e :: es) =>
      '[' :: '\n' :: (nSpaces (ind + 2) ++ stringifyChars (ind + 2) e ++
        elemsRestChars (ind + 2) es ++ '\n' :: (nSpaces ind ++ [']']))
  | _, Json.obj [] => ['\x7b', '\x7d']
  | ind, Json.obj (m :: ms) =>
      '\x7b' :: '\n' :: (nSpaces (ind + 2) ++ memberChars (ind + 2) m ++
        membersRestChars (ind + 2) ms ++ '\n' :: (nSpaces ind ++ ['\x7d']))

/-- Serialization of one object member: quoted key, colon, one space (the
gap is non-empty), then the value. -/
def memberChars (ind : Nat) (m : String × Json) : List Char :=
  quoteChars m.1 ++ ':' :: ' ' :: stringifyChars ind m.2

/-- Serialization of the second and later array elements, each preceded by
a comma, newline and indentation. -/
def elemsRestChars : Nat → List Json → List Char
  | _, [] => []
  | ind, e :: es => ',' :: '\n' :: (nSpaces ind ++ stringifyChars ind e ++ elemsRestChars ind es)

/-- Serialization of the second and later object members. -/
def membersRestChars : Nat → List (String × Json) → List Char
  | _, [] => []
  | ind, m :: ms => ',' :: '\n' :: (nSpaces ind ++ memberChars ind m ++ membersRestChars ind ms)

end

/-- Model of `JSON.stringify(data, null, 2)` as a string, the exact file
contents `saveData` writes. -/
def jsonStringify (j : Json) : String := String.mk (stringifyChars 0 j)

/-! ## Parsing: model of `JSON.parse` (modelled from the spec: the
repository itself contains no JSON reader; §8 of the design appeals to
"parsed as JSON" for the round-trip property). The reader below follows
the JSON grammar on the texts `JSON.stringify` produces. -/

/-- JSON insignificant white space: space, tab, line feed, carriage return. -/
def jsonWs (c : Char) : Bool := c == ' ' || c == '\t' || c == '\n' || c == '\r'

/-- Reading of a run of decimal digits with its value; fails on an empty run. -/
def parseNatChars (cs : List Char) : Option (Nat × List Char) :=
  let digs := cs.takeWhile isDig
  if digs.isEmpty then none else some (digitsToNat digs, cs.dropWhile isDig)

/-- Value of a hexadecimal digit character, either case. -/
def hexVal (c : Char) : Option Nat :=
  if 48 <= c.toNat && c.toNat <= 57 then some (c.toNat - 48)
  else if 97 <= c.toNat && c.toNat <= 102 then some (c.toNat - 87)
  else if 65 <= c.toNat && c.toNat <= 70 then some (c.toNat - 55)
  else none

/-- Resolution of a single-character escape inside a JSON string literal. -/
def unescapeChar (c : Char) : Option Char :=
  if c = '"' then some '"'
  else if c = '\\' then some '\\'
  else if c = '/' then some '/'
  else if c = 'b' then some '\x08'
  else if c = 'f' then some '\x0c'
  else if c = 'n' then some '\n'
  else if c = 'r' then some '\r'
  else if c = 't' then some '\t'
  else none

/-- Reading of the body of a JSON string literal after its opening quote,
accumulating characters until the closing quote; raw control characters
are rejected, escapes are resolved. -/
def parseStrBody : List Char → List Char → Option (List Char × List Char)
  | '"' :: rest, acc => some (acc.reverse, rest)
  | '\\' :: 'u' :: h1 :: h2 :: h3 :: h4 :: rest, acc =>
      match hexVal h1, hexVal h2, hexVal h3, hexVal h4 with
      | some a, some b, some c, some d =>
          parseStrBody rest (Char.ofNat (((a * 16 + b) * 16 + c) * 16 + d) :: acc)
      | _, _, _, _ => none
  | '\\' :: e :: rest, acc =>
      match unescapeChar e with
      | some c => parseStrBody rest (c :: acc)
      | none => none
  | c :: rest, acc => if c.toNat < 32 then none else parseStrBody rest (c :: acc)
  | [], _ => none

mutual

/-- Reading of one JSON value, skipping leading white space. The fuel
argument bounds the recursion depth; `sizeVal` fuel suffices. -/
def parseVal : Nat → List Char → Option (Json × List Char)
  | 0, _ => none
  | fuel + 1, cs =>
    match cs.dropWhile jsonWs with
    | 'n' :: 'u' :: 'l' :: 'l' :: rest => some (Json.null, rest)
    | 't' :: 'r' :: 'u' :: 'e' :: rest => some (Json.bool true, rest)
    | 'f' :: 'a' :: 'l' :: 's' :: 'e' :: rest => some (Json.bool false, rest)
    | '"' :: rest =>
      match parseStrBody rest [] with
      | some (chars, rest2) => some (Json.str (String.mk chars), rest2)
      | none => none
    | '-' :: rest =>
      match parseNatChars rest with
      | some (n, rest2) => some (Json.num (-(n : Int)), rest2)
      | none => none
    | '[' :: rest =>
      match rest.dropWhile jsonWs with
      | ']' :: rest2 => some (Json.arr [], rest2)
      | _ =>
        match parseVal fuel rest with
        | some (e, rest2) =>
          match parseElems fuel rest2 with
          | some (es, rest3) => some (Json.arr (e :: es), rest3)
          | none => none
        | none => none
    | '\x7b' :: rest =>
      match rest.dropWhile jsonWs with
      | '\x7d' :: rest2 => some (Json.obj [], rest2)
      | _ =>
        match parseMember fuel rest with
        | some (m, rest2) =>
          match parseMembers fuel rest2 with
          | some (ms, rest3) => some (Json.obj (m :: ms), rest3)
          | none => none
        | none => none
    | c :: rest =>
      if isDig c then
        match parseNatChars (c :: rest) with
        | some (n, rest2) => some (Json.num (n : Int), rest2)
        | none => none
      else none
    | [] => none

/-- Reading of the remaining elements of a non-empty array: either the
closing bracket, or a comma followed by a value and the rest. -/
def parseElems : Nat → List Char → Option (List Json × List Char)
  | 0, _ => none
  | fuel + 1, cs =>
    match cs.dropWhile jsonWs with
    | ']' :: rest => some ([], rest)
    | ',' :: rest =>
      match parseVal fuel rest with
      | some (e, rest2) =>
        match parseElems fuel rest2 with
        | some (es, rest3) => some (e :: es, rest3)
        | none => none
      | none => none
    | _ => none

/-- Reading of one object member: quoted key, colon, value. -/
def parseMember : Nat → List Char → Option ((String × Json) × List Char)
  | 0, _ => none
  | fuel + 1, cs =>
    match cs.dropWhile jsonWs with
    | '"' :: rest =>
      match parseStrBody rest [] with
      | some (kchars, rest2) =>
        match rest2.dropWhile jsonWs with
        | ':' :: rest3 =>
          match parseVal fuel rest3 with
          | some (v, rest4) => some ((String.mk kchars, v), rest4)
          | none => none
        | _ => none
      | none => none
    | _ => none

/-- Reading of the remaining members of a non-empty object. -/
def parseMembers : Nat → List Char → Option (List (String × Json) × List Char)
  | 0, _ => none
  | fuel + 1, cs =>
    match cs.dropWhile jsonWs with
    | '\x7d' :: cs2 => some ([], cs2)
    | ',' :: cs2 =>
      match parseMember fuel cs2 with
      | some (m, rest2) =>
        match parseMembers fuel rest2 with
        | some (ms, rest3) => some (m :: ms, rest3)
        | none => none
      | none => none
    | _ => none

end

/-- Model of `JSON.parse` on a complete document: read one value, then
require only white space to remain. The fuel `s.length + 1` dominates the
structural size of any value a text of that length can denote. -/
def jsonParse (s : String) : Option Json :=
  match parseVal (s.length + 1) s.data with
  | some (j, rest) => if (rest.dropWhile jsonWs).isEmpty then some j else none
  | none => none

/-! ## Structural size and well-formedness of JSON values -/

/-- Pairwise distinctness of object keys, as holds of every JavaScript
object (an object cannot carry the same key twice). -/
def keysDistinct : List String → Bool
  | [] => true
  | k :: ks => !(ks.contains k) && keysDistinct ks

mutual

/-- Well-formedness of a JSON value as an image of a JavaScript runtime
value: every object, at any depth, has pairwise distinct keys. -/
def Json.wf : Json → Bool
  | Json.null => true
  | Json.bool _ => true
  | Json.num _ => true
  | Json.str _ => true
  | Json.arr es => wfElems es
  | Json.obj ms => keysDistinct (ms.map Prod.fst) && wfMembers ms

/-- Well-formedness of a list of array elements. -/
def wfElems : List Json → Bool
  | [] => true
  | e :: es => e.wf && wfElems es

/-- Well-formedness of a list of object members. -/
def wfMembers : List (String × Json) → Bool
  | [] => true
  | m :: ms => m.2.wf && wfMembers ms

end

mutual

/-- Fuel needed by `parseVal` to read a serialized value. -/
def sizeVal : Json → Nat
  | Json.arr es => 1 + sizeElems es
  | Json.obj ms => 1 + sizeMembers ms
  | _ => 1

/-- Fuel needed by `parseElems` for the tail of an array. -/
def sizeElems : List Json → Nat
  | [] => 1
  | e :: es => sizeVal e + sizeElems es

/-- Fuel needed by `parseMembers` for the tail of an object. -/
def sizeMembers : List (String × Json) → Nat
  | [] => 1
  | m :: ms => 1 + sizeVal m.2 + sizeMembers ms

end

/-! ## The persister `saveData` (src/saveData.ts)

File-system effects are made explicit: a `FileSys` record (known
directories and files) is threaded through, and an `FsEnv` oracle decides
whether `fs.mkdir` and `fs.writeFile` succeed, carrying the underlying
error message when they fail. The wall clock is an explicit `DateTime`
argument. -/

/-- Wall-clock instant as the source reads it off a `Date`. -/
structure DateTime where
  day : Nat
  month : Nat
  year : Nat
  hours : Nat
  minutes : Nat
  seconds : Nat
  millis : Nat

/-- Decimal string of a natural number. -/
def natStr (n : Nat) : String := String.mk (natChars n)

/-- Two-digit zero-padded field, as the `en-GB` locale and `toTimeString`
render day, month, hours, minutes and seconds. -/
def pad2 (n : Nat) : String := if n < 10 then "0" ++ natStr n else natStr n

/-- Model of `Date#toLocaleDateString('en-GB')`: the British short date
format `DD/MM/YYYY` — note the year is rendered with all its digits
(four for contemporary dates), not two. -/
def toLocaleDateStringEnGB (d : DateTime) : String :=
  pad2 d.day ++ "/" ++ pad2 d.month ++ "/" ++ natStr d.year

/-- Model of `replace(/\//g, '-')` applied to a string. -/
def slashesToDashes (s : String) : String :=
  String.mk (s.data.map (fun c => if c = '/' then '-' else c))

/-- Model of `toTimeString().split(' ')[0]` then `replace(/:/g, '-')`:
the clock part `HH-mm-ss`. -/
def timePart (d : DateTime) : String :=
  pad2 d.hours ++ "-" ++ pad2 d.minutes ++ "-" ++ pad2 d.seconds

/-- Model of `getMilliseconds().toString().padStart(3, '0')`. -/
def msPart (d : DateTime) : String :=
  let s := natStr d.millis
  if s.length < 3 then String.mk (List.replicate (3 - s.length) '0') ++ s else s

/-- The synthesized file name `data-<date>_<time>-<ms>.json` built by
`saveData` when no override is supplied. -/
def genFileName (d : DateTime) : String :=
  "data-" ++ slashesToDashes (toLocaleDateStringEnGB d) ++ "_" ++ timePart d ++ "-" ++ msPart d ++ ".json"

/-- The file-name override check of `saveData`:
`data.fileData?.fileName && typeof ... === 'string' && ....trim().length > 0`.
Returns the override verbatim (untrimmed) when the nested field holds a
truthy string with non-blank trimmed content. -/
def fileNameOverride (data : Json) : Option String :=
  match getField data "fileData" with
  | none => none
  | some fd =>
    match getField fd "fileName" with
    | some (Json.str s) =>
        if s ≠ "" ∧ 0 < (jsTrim s).length then some s else none
    | _ => none

/-- The file name `saveData` uses: the override when present, otherwise
the timestamp-synthesized name. -/
def chosenFileName (data : Json) (now : DateTime) : String :=
  match fileNameOverride data with
  | some s => s
  | none => genFileName now

/-- Explicit file-system state: directories known to exist and files with
their contents (association by full path). -/
structure FileSys where
  dirs : List String
  files : List (String × String)

/-- Oracle for the two file-system calls: `none` means the call succeeds,
`some msg` that it fails with underlying message `msg`. -/
structure FsEnv where
  mkdirError : Option String
  writeError : Option String

/-- Upsert of a file: overwrite the contents if the path exists, append
the file otherwise (the semantics of `fs.writeFile`). -/
def writeFileAt : List (String × String) → String → String → List (String × String)
  | [], p, c => [(p, c)]
  | (q, d) :: rest, p, c =>
      if q = p then (q, c) :: rest else (q, d) :: writeFileAt rest p c

/-- Model of `path.join(folder, fileName)` on the simple paths in use. -/
def pathJoin (folder fileName : String) : String := folder ++ "/" ++ fileName

/-- Outcome of one `saveData` call: the thrown-or-ok result, the
file-system state after the call, the `console.error` lines emitted, and
whether the file write was reached. -/
structure SaveResult where
  result : Except String Unit
  fs : FileSys
  logs : List String
  wroteFile : Bool

/-- Embedding of `saveData` (src/saveData.ts): create the folder
(recursively, idempotently); choose the file name; write the 2-space
pretty-printed JSON serialization of the payload as the complete file
contents. Any failure of either call logs the folder and the underlying
message and throws the single opaque error `Failed to save data`. -/
def saveData (data : Json) (folder : String) (now : DateTime) (env : FsEnv)
    (fs : FileSys) : SaveResult :=
  match env.mkdirError with
  | some msg =>
      { result := Except.error "Failed to save data"
        fs := fs
        logs := [s!"[SAVE ERROR] Check folder \"{folder}\" or permissions.",
                 s!"[SAVE ERROR] {msg}"]
        wroteFile := false }
  | none =>
      let fs1 : FileSys :=
        { fs with dirs := if fs.dirs.contains folder then fs.dirs else folder :: fs.dirs }
      let filePath := pathJoin folder (chosenFileName data now)
      match env.writeError with
      | some msg =>
          { result := Except.error "Failed to save data"
            fs := fs1
            logs := [s!"[SAVE ERROR] Check folder \"{folder}\" or permissions.",
                     s!"[SAVE ERROR] {msg}"]
            wroteFile := false }
      | none =>
          { result := Except.ok ()
            fs := { fs1 with files := writeFileAt fs1.files filePath (jsonStringify data) }
            logs := []
            wroteFile := true }

/-! ## The request handler and error handler (server source) -/

/-- Response bodies: `res.send('Success')` sends text, the error handler
sends a one-field JSON object `{ error: ... }`. -/
inductive RespBody where
  | text : String → RespBody
  | errObj : String → RespBody
deriving DecidableEq

/-- Embedding of the centralized `errorHandler` middleware: maps the two
known error messages to 400 and 500 responses and anything else to a
generic 500. -/
def errorHandler (msg : String) : Nat × RespBody :=
  if msg = "Data is not in the correct format" then (400, RespBody.errObj "Invalid input data")
  else if msg = "Failed to save data" then (500, RespBody.errObj "Failed to save the provided data")
  else (500, RespBody.errObj "Internal Server Error")

/-- Outcome of `processRequest` before error translation: either the
success response was sent, or an error was forwarded to `next`. -/
structure ProcResult where
  outcome : Except String Unit
  fs : FileSys
  saveCalled : Bool

/-- Embedding of `processRequest`: validate the body; on rejection throw
the malformed-input error without touching the persister; otherwise call
`saveData` and send `Success`; any thrown error is forwarded to `next`. -/
def processRequest (body : Json) (folder : String) (now : DateTime) (env : FsEnv)
    (fs : FileSys) : ProcResult :=
  if !validateData body then
    { outcome := Except.error "Data is not in the correct format", fs := fs, saveCalled := false }
  else
    let r := saveData body folder now env fs
    match r.result with
    | Except.ok _ => { outcome := Except.ok (), fs := r.fs, saveCalled := true }
    | Except.error e => { outcome := Except.error e, fs := r.fs, saveCalled := true }

/-- The full `POST /process` pipeline: `processRequest`, with any
forwarded error translated by `errorHandler`. Yields the HTTP status, the
response body, the resulting file-system state and whether the persister
ran. -/
def handleProcess (body : Json) (folder : String) (now : DateTime) (env : FsEnv)
    (fs : FileSys) : (Nat × RespBody) × FileSys × Bool :=
  let r := processRequest body folder now env fs
  match r.outcome with
  | Except.ok _ => ((200, RespBody.text "Success"), r.fs, r.saveCalled)
  | Except.error e => (errorHandler e, r.fs, r.saveCalled)

/-! ## Environment and configuration (server source) -/

/-- Truthiness of `process.env[key]` in the source's `!value` test:
an unset variable (`undefined`) and the empty string are both falsy. -/
def envTruthy : Option String → Bool
  | none => false
  | some s => s ≠ ""

/-- Embedding of `getEnvVar`: throw when the variable is falsy and no
default was supplied; otherwise `value || defaultValue` — the default is
also used when the variable is set to a falsy (empty) string. -/
def getEnvVar (env : String → Option String) (key : String)
    (defaultValue : Option String) : Except String String :=
  let value := env key
  if !envTruthy value && defaultValue = none then
    Except.error s!"Environment variable {key} is not set"
  else if envTruthy value then
    Except.ok ((value).getD "")
  else
    Except.ok (defaultValue.getD "")

/-- Model of JavaScript `parseInt(s, 10)`: skip leading white space, read
an optional sign and then a maximal run of decimal digits; `none` stands
for `NaN` (no digits). -/
def jsParseInt10 (s : String) : Option Int :=
  let cs := s.data.dropWhile jsIsWhitespace
  match cs with
  | '-' :: rest => (parseNatChars rest).map (fun p => -(p.1 : Int))
  | '+' :: rest => (parseNatChars rest).map (fun p => (p.1 : Int))
  | _ => (parseNatChars cs).map (fun p => (p.1 : Int))

/-- Embedding of `getPort`: parse the string; throw `Invalid PORT_NUMBER`
when the parse yields `NaN` or a value outside `[1024, 65535]`. -/
def getPort (portString : String) : Except String Int :=
  match jsParseInt10 portString with
  | none => Except.error s!"Invalid PORT_NUMBER: {portString}"
  | some port =>
      if port < 1024 ∨ port > 65535 then Except.error s!"Invalid PORT_NUMBER: {portString}"
      else Except.ok port

/-- Embedding of the startup computation of `PORT`:
`getPort(getEnvVar('PORT_NUMBER', '3000'))`. -/
def PORT (env : String → Option String) : Except String Int :=
  (getEnvVar env "PORT_NUMBER" (some "3000")).bind getPort

/-! ## Supporting lemmas: lists, white space and digits -/

/-- Rebuilding a string from its character list is the identity. -/
theorem stringMkData (s : String) : String.mk s.data = s := rfl

/-- Dropping a satisfied prefix. -/
theorem dropWhileAppendAll {p : Char → Bool} {l r : List Char}
    (h : ∀ c ∈ l, p c = true) :
    List.dropWhile p (l ++ r) = List.dropWhile p r := by
  induction l with
  | nil => rfl
  | cons c cs ih =>
      have hc : p c = true := h c (List.mem_cons_self c cs)
      simp only [List.cons_append, List.dropWhile_cons, hc, if_true]
      exact ih fun d hd => h d (List.mem_cons_of_mem c hd)

/-- Dropping nothing when the head fails the predicate. -/
theorem dropWhileConsNot {p : Char → Bool} {c : Char} {t : List Char}
    (h : p c = false) : List.dropWhile p (c :: t) = c :: t := by
  simp [List.dropWhile_cons, h]

/-- Every character of an indentation run is white space. -/
theorem nSpaces_ws (n : Nat) : ∀ c ∈ nSpaces n, jsonWs c = true := by
  intro c hc
  have : c = ' ' := List.eq_of_mem_replicate hc
  subst this; rfl

/-- Truth of a head-failure check: the list is empty or its head fails `p`. -/
def headFails (p : Char → Bool) : List Char → Bool
  | [] => true
  | c :: _ => !p c

/-- Taking exactly a satisfied prefix when what follows fails. -/
theorem takeWhileAllAppend {p : Char → Bool} {l r : List Char}
    (hl : ∀ c ∈ l, p c = true) (hr : headFails p r = true) :
    List.takeWhile p (l ++ r) = l := by
  induction l with
  | nil =>
      cases r with
      | nil => rfl
      | cons c t =>
          have : p c = false := by simpa [headFails] using hr
          simp [List.takeWhile_cons, this]
  | cons c cs ih =>
      have hc : p c = true := hl c (List.mem_cons_self c cs)
      simp only [List.cons_append, List.takeWhile_cons, hc, if_true]
      rw [ih fun d hd => hl d (List.mem_cons_of_mem c hd)]

/-- Dropping exactly a satisfied prefix when what follows fails. -/
theorem dropWhileAllAppend {p : Char → Bool} {l r : List Char}
    (hl : ∀ c ∈ l, p c = true) (hr : headFails p r = true) :
    List.dropWhile p (l ++ r) = r := by
  rw [dropWhileAppendAll hl]
  cases r with
  | nil => rfl
  | cons c t =>
      have : p c = false := by simpa [headFails] using hr
      exact dropWhileConsNot this

/-- Digit characters carry their digit value back. -/
theorem digitVal10_digitChar10 {d : Nat} (h : d < 10) :
    digitVal10 (digitChar10 d) = d := by
  interval_cases d <;> rfl

/-- Digit characters pass the digit test. -/
theorem isDig_digitChar10 {d : Nat} (h : d < 10) :
    isDig (digitChar10 d) = true := by
  interval_cases d <;> rfl

/-- Digit characters are not JSON white space. -/
theorem jsonWs_of_isDig {c : Char} (h : isDig c = true) : jsonWs c = false := by
  have h1 : 48 ≤ c.toNat ∧ c.toNat ≤ 57 := by simpa [isDig] using h
  simp only [jsonWs, Bool.or_eq_false_iff, beq_eq_false_iff_ne, ne_eq]
  refine ⟨⟨⟨?_, ?_⟩, ?_⟩, ?_⟩ <;>
    { intro hh; subst hh; exact absurd h1.1 (by decide) }

/-- Closed form of the fuel-driven digit expansion. -/
theorem natCharsAux_eq {fuel n : Nat} (h : n < fuel) :
    natCharsAux fuel n =
      if n = 0 then ['0'] else (Nat.digits 10 n).reverse.map digitChar10 := by
  induction fuel generalizing n with
  | zero => omega
  | succ f ih =>
      by_cases h10 : n < 10
      · by_cases h0 : n = 0
        · subst h0; simp [natCharsAux]; rfl
        · simp only [natCharsAux, if_pos h10, if_neg h0]
          rw [Nat.digits_def' (by norm_num : 1 < 10) (Nat.pos_of_ne_zero h0),
            Nat.div_eq_of_lt h10]
          simp [Nat.mod_eq_of_lt h10]
      · have h0 : n ≠ 0 := by omega
        have hdiv : n / 10 < f := by omega
        have hd0 : ¬(n / 10 = 0) := by omega
        simp only [natCharsAux, if_neg h10]
        rw [if_neg h0, ih hdiv, if_neg hd0,
          Nat.digits_def' (by norm_num : 1 < 10) (Nat.pos_of_ne_zero h0)]
        simp

/-- Closed form of `natChars`. -/
theorem natChars_eq (n : Nat) :
    natChars n = if n = 0 then ['0'] else (Nat.digits 10 n).reverse.map digitChar10 :=
  natCharsAux_eq (Nat.lt_succ_self n)

/-- Every character `natChars` emits is a digit. -/
theorem natChars_all_digits (n : Nat) : ∀ c ∈ natChars n, isDig c = true := by
  intro c hc
  rw [natChars_eq] at hc
  by_cases h0 : n = 0
  · subst h0; simp at hc; subst hc; rfl
  · rw [if_neg h0] at hc
    obtain ⟨d, hd, rfl⟩ := List.mem_map.mp hc
    have : d < 10 := Nat.digits_lt_base (by norm_num) (List.mem_reverse.mp hd)
    exact isDig_digitChar10 this

/-- The digit expansion is never empty. -/
theorem natChars_ne_nil (n : Nat) : natChars n ≠ [] := by
  rw [natChars_eq]
  by_cases h0 : n = 0
  · simp [h0]
  · rw [if_neg h0]
    simp [Nat.digits_ne_nil_iff_ne_zero.mpr h0]

/-- Horner evaluation of a big-endian digit-character list. -/
theorem foldlDigitChars (l : List Nat) (a : Nat) (h : ∀ d ∈ l, d < 10) :
    List.foldl (fun x c => 10 * x + digitVal10 c) a (l.reverse.map digitChar10)
      = a * 10 ^ l.length + Nat.ofDigits 10 l := by
  induction l generalizing a with
  | nil => simp
  | cons d ds ih =>
      simp only [List.reverse_cons, List.map_append, List.foldl_append,
        List.map_cons, List.map_nil, List.foldl_cons, List.foldl_nil]
      rw [ih a fun x hx => h x (List.mem_cons_of_mem d hx),
        digitVal10_digitChar10 (h d (List.mem_cons_self d ds)),
        Nat.ofDigits_cons, List.length_cons]
      ring

/-- The decimal reading inverts the decimal printing. -/
theorem digitsToNat_natChars (n : Nat) : digitsToNat (natChars n) = n := by
  rw [natChars_eq]
  by_cases h0 : n = 0
  · subst h0; rfl
  · rw [if_neg h0]
    unfold digitsToNat
    rw [foldlDigitChars _ 0 fun d hd => Nat.digits_lt_base (by norm_num) hd]
    simp [Nat.ofDigits_digits]

/-- Reading a printed natural number consumes exactly its digits. -/
theorem parseNatChars_natChars {n : Nat} {rest : List Char}
    (hrest : headFails isDig rest = true) :
    parseNatChars (natChars n ++ rest) = some (n, rest) := by
  unfold parseNatChars
  rw [takeWhileAllAppend (natChars_all_digits n) hrest,
    dropWhileAllAppend (natChars_all_digits n) hrest]
  simp [List.isEmpty_iff, natChars_ne_nil, digitsToNat_natChars]

/-! ## Supporting lemmas: string literals -/

/-- Hexadecimal digits carry their value back, either case. -/
theorem hexVal_hexDigit {d : Nat} (h : d < 16) : hexVal (hexDigit d) = some d := by
  interval_cases d <;> rfl

/-- Reading one escaped character undoes its escaping. -/
theorem parseStrBody_escapeChar (c : Char) (rest acc : List Char) :
    parseStrBody (escapeChar c ++ rest) acc = parseStrBody rest (c :: acc) := by
  unfold escapeChar
  split_ifs with h1 h2 h3 h4 h5 h6 h7 h8
  · subst h1; simp [parseStrBody, unescapeChar]
  · subst h2; simp [parseStrBody, unescapeChar]
  · have hc : c = '\x08' := by rw [← Char.ofNat_toNat c, h3]
    subst hc; simp [parseStrBody, unescapeChar]
  · have hc : c = '\t' := by rw [← Char.ofNat_toNat c, h4]
    subst hc; simp [parseStrBody, unescapeChar]
  · have hc : c = '\n' := by rw [← Char.ofNat_toNat c, h5]
    subst hc; simp [parseStrBody, unescapeChar]
  · have hc : c = '\x0c' := by rw [← Char.ofNat_toNat c, h6]
    subst hc; simp [parseStrBody, unescapeChar]
  · have hc : c = '\r' := by rw [← Char.ofNat_toNat c, h7]
    subst hc; simp [parseStrBody, unescapeChar]
  · have hv1 : hexVal (hexDigit (c.toNat / 16)) = some (c.toNat / 16) :=
      hexVal_hexDigit (by omega)
    have hv2 : hexVal (hexDigit (c.toNat % 16)) = some (c.toNat % 16) :=
      hexVal_hexDigit (by omega)
    simp only [List.cons_append, parseStrBody, hv1, hv2,
      show hexVal '0' = some 0 from rfl]
    have key : ∀ x : Nat, x = c.toNat →
        parseStrBody rest (Char.ofNat x :: acc) = parseStrBody rest (c :: acc) := by
      intro x hx; rw [hx, Char.ofNat_toNat]
    exact key _ (by omega)
  · simp only [List.singleton_append]
    rw [parseStrBody.eq_def]
    split <;> simp_all

/-- Reading an escaped character sequence up to the closing quote. -/
theorem parseStrBody_escapeList (l : List Char) (rest acc : List Char) :
    parseStrBody (escapeList l ++ '"' :: rest) acc = some (acc.reverse ++ l, rest) := by
  induction l generalizing acc with
  | nil => simp [escapeList, parseStrBody]
  | cons c cs ih =>
      have : escapeList (c :: cs) = escapeChar c ++ escapeList cs := by
        simp [escapeList]
      rw [this, List.append_assoc, parseStrBody_escapeChar, ih (c :: acc)]
      simp

/-- Reading a quoted string body produced by `quoteChars`, starting after
the opening quote with an empty accumulator. -/
theorem parseStrBody_quoted (s : String) (rest : List Char) :
    parseStrBody (escapeList s.data ++ '"' :: rest) [] = some (s.data, rest) := by
  rw [parseStrBody_escapeList]; rfl

/-! ## Supporting lemmas: shape of serialized values -/

/-- Sizes are positive. -/
theorem sizeVal_pos (j : Json) : 1 ≤ sizeVal j := by
  cases j <;> simp [sizeVal]

/-- Element-list sizes are positive. -/
theorem sizeElems_pos (es : List Json) : 1 ≤ sizeElems es := by
  cases es with
  | nil => simp [sizeElems]
  | cons e es => have := sizeVal_pos e; simp [sizeElems]; omega

/-- Member-list sizes are positive. -/
theorem sizeMembers_pos (ms : List (String × Json)) : 1 ≤ sizeMembers ms := by
  cases ms with
  | nil => simp [sizeMembers]
  | cons m ms => simp [sizeMembers]; omega

/-- A serialized value starts with a character that is not white space and
closes no bracket. -/
theorem stringify_head (ind : Nat) (j : Json) :
    ∃ c t, stringifyChars ind j = c :: t ∧ jsonWs c = false ∧ c ≠ ']' ∧ c ≠ '\x7d' := by
  cases j with
  | null => exact ⟨'n', _, rfl, rfl, by decide, by decide⟩
  | bool b =>
      cases b with
      | true => exact ⟨'t', _, rfl, rfl, by decide, by decide⟩
      | false => exact ⟨'f', _, rfl, rfl, by decide, by decide⟩
  | num i =>
      by_cases h : i < 0
      · exact ⟨'-', natChars i.natAbs, by simp [stringifyChars, numChars, h], rfl,
          by decide, by decide⟩
      · obtain ⟨c, t, hct⟩ := List.exists_cons_of_ne_nil (natChars_ne_nil i.toNat)
        have hdig : isDig c = true :=
          natChars_all_digits _ c (by rw [hct]; exact List.mem_cons_self c t)
        refine ⟨c, t, by simp [stringifyChars, numChars, h, hct],
          jsonWs_of_isDig hdig, ?_, ?_⟩
        · intro hc; rw [hc] at hdig; exact absurd hdig (by decide)
        · intro hc; rw [hc] at hdig; exact absurd hdig (by decide)
  | str s => exact ⟨'"', escapeList s.data ++ ['"'], rfl, rfl, by decide, by decide⟩
  | arr es =>
      cases es with
      | nil => exact ⟨'[', [']'], rfl, rfl, by decide, by decide⟩
      | cons e es =>
          exact ⟨'[', '\n' :: (nSpaces (ind + 2) ++ stringifyChars (ind + 2) e ++
            elemsRestChars (ind + 2) es ++ '\n' :: (nSpaces ind ++ [']'])), rfl, rfl,
            by decide, by decide⟩
  | obj ms =>
      cases ms with
      | nil => exact ⟨'\x7b', ['\x7d'], rfl, rfl, by decide, by decide⟩
      | cons m ms =>
          exact ⟨'\x7b', '\n' :: (nSpaces (ind + 2) ++ memberChars (ind + 2) m ++
            membersRestChars (ind + 2) ms ++ '\n' :: (nSpaces ind ++ ['\x7d'])), rfl, rfl,
            by decide, by decide⟩

/-- White space before a serialized value never reaches inside it. -/
theorem dropWhileStringify (ind : Nat) (j : Json) (rest : List Char) :
    List.dropWhile jsonWs (stringifyChars ind j ++ rest) = stringifyChars ind j ++ rest := by
  obtain ⟨c, t, hct, hws, -, -⟩ := stringify_head ind j
  rw [hct, List.cons_append, dropWhileConsNot hws]

/-- Leading white space is invisible to the value reader. -/
theorem parseVal_wsPrefix (f : Nat) (pre cs : List Char)
    (hpre : ∀ c ∈ pre, jsonWs c = true) :
    parseVal (f + 1) (pre ++ cs) = parseVal (f + 1) cs := by
  simp only [parseVal]
  rw [dropWhileAppendAll hpre]

/-- Leading white space is invisible to the member reader. -/
theorem parseMember_wsPrefix (f : Nat) (pre cs : List Char)
    (hpre : ∀ c ∈ pre, jsonWs c = true) :
    parseMember (f + 1) (pre ++ cs) = parseMember (f + 1) cs := by
  simp only [parseMember]
  rw [dropWhileAppendAll hpre]

/-- What follows an element inside an array never starts with a digit. -/
theorem headFails_elemsRest (i : Nat) (es : List Json) (x : List Char) :
    headFails isDig (elemsRestChars i es ++ '\n' :: x) = true := by
  cases es <;> rfl

/-- What follows a member inside an object never starts with a digit. -/
theorem headFails_membersRest (i : Nat) (ms : List (String × Json)) (x : List Char) :
    headFails isDig (membersRestChars i ms ++ '\n' :: x) = true := by
  cases ms <;> rfl

/-- White space made of a newline and an indentation run. -/
theorem wsNlSpaces (n : Nat) : ∀ c ∈ '\n' :: nSpaces n, jsonWs c = true := by
  intro c hc
  rcases List.mem_cons.mp hc with h | h
  · subst h; rfl
  · exact nSpaces_ws n c h

/-- Skipping a newline and indentation. -/
theorem dropWhileNlSpaces (n : Nat) (x : List Char) :
    List.dropWhile jsonWs ('\n' :: (nSpaces n ++ x)) = List.dropWhile jsonWs x := by
  rw [show ('\n' :: (nSpaces n ++ x)) = ('\n' :: nSpaces n) ++ x from by simp]
  exact dropWhileAppendAll (wsNlSpaces n)

/-- The value reader on a digit-headed text reads a number. -/
theorem parseVal_digit (f : Nat) (c : Char) (t : List Char) (hdig : isDig c = true) :
    parseVal (f + 1) (c :: t) =
      match parseNatChars (c :: t) with
      | some (n, rest2) => some (Json.num (n : Int), rest2)
      | none => none := by
  have hws := jsonWs_of_isDig hdig
  simp only [parseVal, dropWhileConsNot hws]
  split <;> simp_all <;> exact absurd hdig (by decide)

/-- A member's serialization starts with its quoted key. -/
theorem memberChars_cons (i : Nat) (m : String × Json) :
    memberChars i m
      = '"' :: (escapeList m.1.data ++ ('"' :: (':' :: ' ' :: stringifyChars i m.2))) := by
  cases m; simp [memberChars, quoteChars]

/-- Round trip of the reader over the printer, all four readers at once,
by induction on the fuel. -/
theorem parseRound (fuel : Nat) :
    (∀ ind j rest, sizeVal j ≤ fuel → headFails isDig rest = true →
      parseVal fuel (stringifyChars ind j ++ rest) = some (j, rest)) ∧
    (∀ ind m rest, 1 + sizeVal m.2 ≤ fuel → headFails isDig rest = true →
      parseMember fuel (memberChars ind m ++ rest) = some (m, rest)) ∧
    (∀ ind es rest, sizeElems es ≤ fuel →
      parseElems fuel (elemsRestChars (ind + 2) es ++ '\n' :: (nSpaces ind ++ ']' :: rest))
        = some (es, rest)) ∧
    (∀ ind ms rest, sizeMembers ms ≤ fuel →
      parseMembers fuel
          (membersRestChars (ind + 2) ms ++ '\n' :: (nSpaces ind ++ '\x7d' :: rest))
        = some (ms, rest)) := by
  induction fuel with
  | zero =>
      refine ⟨?_, ?_, ?_, ?_⟩
      · intro ind j rest hsz _; have := sizeVal_pos j; omega
      · intro ind m rest hsz _; have := sizeVal_pos m.2; omega
      · intro ind es rest hsz; have := sizeElems_pos es; omega
      · intro ind ms rest hsz; have := sizeMembers_pos ms; omega
  | succ f ih =>
      obtain ⟨ihP, ihM, ihE, ihO⟩ := ih
      refine ⟨?_, ?_, ?_, ?_⟩
      · -- the value reader
        intro ind j rest hsz hrest
        cases j with
        | null =>
            simp only [stringifyChars, List.cons_append, List.nil_append]
            simp only [parseVal, dropWhileConsNot (show jsonWs 'n' = false from rfl)]
        | bool b =>
            cases b with
            | true =>
                simp only [stringifyChars, List.cons_append, List.nil_append]
                simp only [parseVal, dropWhileConsNot (show jsonWs 't' = false from rfl)]
            | false =>
                simp only [stringifyChars, List.cons_append, List.nil_append]
                simp only [parseVal, dropWhileConsNot (show jsonWs 'f' = false from rfl)]
        | num i =>
            by_cases hneg : i < 0
            · simp only [stringifyChars, numChars, if_pos hneg, List.cons_append]
              simp only [parseVal, dropWhileConsNot (show jsonWs '-' = false from rfl),
                parseNatChars_natChars hrest]
              simp [abs_of_nonpos (show i ≤ 0 by omega)]
            · obtain ⟨c, t, hct⟩ := List.exists_cons_of_ne_nil (natChars_ne_nil i.toNat)
              have hdig : isDig c = true :=
                natChars_all_digits _ c (by rw [hct]; exact List.mem_cons_self c t)
              have hnat : parseNatChars (c :: (t ++ rest)) = some (i.toNat, rest) := by
                rw [show c :: (t ++ rest) = natChars i.toNat ++ rest from by rw [hct]; rfl]
                exact parseNatChars_natChars hrest
              simp only [stringifyChars, numChars, if_neg hneg, hct, List.cons_append]
              rw [parseVal_digit f c (t ++ rest) hdig, hnat]
              simp [Int.toNat_of_nonneg (show (0 : Int) ≤ i by omega)]
        | str s =>
            simp only [stringifyChars, quoteChars, List.cons_append, List.append_assoc,
              List.singleton_append, List.nil_append]
            simp only [parseVal, dropWhileConsNot (show jsonWs '"' = false from rfl),
              parseStrBody_quoted]
        | arr es =>
            cases es with
            | nil =>
                simp only [stringifyChars, List.cons_append, List.nil_append]
                simp only [parseVal, dropWhileConsNot (show jsonWs '[' = false from rfl),
                  dropWhileConsNot (show jsonWs ']' = false from rfl)]
            | cons e es =>
                have he := sizeVal_pos e
                have hes := sizeElems_pos es
                have hsz' : sizeVal e + sizeElems es ≤ f := by
                  simp only [sizeVal, sizeElems] at hsz; omega
                simp only [stringifyChars, List.cons_append, List.append_assoc,
                  List.singleton_append, List.nil_append]
                simp only [parseVal, dropWhileConsNot (show jsonWs '[' = false from rfl)]
                obtain ⟨c, t, hct, hws, hc1, hc2⟩ := stringify_head (ind + 2) e
                have hdws : List.dropWhile jsonWs ('\n' :: (nSpaces (ind + 2) ++
                    (stringifyChars (ind + 2) e ++ (elemsRestChars (ind + 2) es ++
                      '\n' :: (nSpaces ind ++ ']' :: rest)))))
                    = c :: (t ++ (elemsRestChars (ind + 2) es ++
                      '\n' :: (nSpaces ind ++ ']' :: rest))) := by
                  rw [dropWhileNlSpaces, hct, List.cons_append, dropWhileConsNot hws]
                rw [hdws]
                have hPV : parseVal f ('\n' :: (nSpaces (ind + 2) ++
                    (stringifyChars (ind + 2) e ++ (elemsRestChars (ind + 2) es ++
                      '\n' :: (nSpaces ind ++ ']' :: rest)))))
                    = some (e, elemsRestChars (ind + 2) es ++
                      '\n' :: (nSpaces ind ++ ']' :: rest)) := by
                  obtain ⟨f2, rfl⟩ : ∃ f2, f = f2 + 1 := ⟨f - 1, by omega⟩
                  rw [show ('\n' :: (nSpaces (ind + 2) ++
                      (stringifyChars (ind + 2) e ++ (elemsRestChars (ind + 2) es ++
                        '\n' :: (nSpaces ind ++ ']' :: rest)))))
                      = ('\n' :: nSpaces (ind + 2)) ++
                        (stringifyChars (ind + 2) e ++ (elemsRestChars (ind + 2) es ++
                          '\n' :: (nSpaces ind ++ ']' :: rest))) from by simp]
                  rw [parseVal_wsPrefix _ _ _ (wsNlSpaces (ind + 2))]
                  exact ihP (ind + 2) e _ (by omega) (headFails_elemsRest _ es _)
                simp only [hPV, ihE ind es rest (by omega : sizeElems es ≤ f)]
                split
                · rename_i x heq
                  injection heq with h1 h2
                  exact absurd h1 hc1
                · rfl
        | obj ms =>
            cases ms with
            | nil =>
                simp only [stringifyChars, List.cons_append, List.nil_append]
                simp only [parseVal, dropWhileConsNot (show jsonWs '\x7b' = false from rfl),
                  dropWhileConsNot (show jsonWs '\x7d' = false from rfl)]
            | cons m ms =>
                have hm := sizeVal_pos m.2
                have hms := sizeMembers_pos ms
                have hsz' : 1 + sizeVal m.2 + sizeMembers ms ≤ f := by
                  simp only [sizeVal, sizeMembers] at hsz; omega
                simp only [stringifyChars, List.cons_append, List.append_assoc,
                  List.singleton_append, List.nil_append]
                simp only [parseVal, dropWhileConsNot (show jsonWs '\x7b' = false from rfl)]
                have hdws : List.dropWhile jsonWs ('\n' :: (nSpaces (ind + 2) ++
                    (memberChars (ind + 2) m ++ (membersRestChars (ind + 2) ms ++
                      '\n' :: (nSpaces ind ++ '\x7d' :: rest)))))
                    = '"' :: (escapeList m.1.data ++
                        ('"' :: (':' :: ' ' :: stringifyChars (ind + 2) m.2)) ++
                      (membersRestChars (ind + 2) ms ++
                        '\n' :: (nSpaces ind ++ '\x7d' :: rest))) := by
                  rw [dropWhileNlSpaces, memberChars_cons, List.cons_append,
                    dropWhileConsNot (show jsonWs '"' = false from rfl)]
                rw [hdws]
                have hPM : parseMember f ('\n' :: (nSpaces (ind + 2) ++
                    (memberChars (ind + 2) m ++ (membersRestChars (ind + 2) ms ++
                      '\n' :: (nSpaces ind ++ '\x7d' :: rest)))))
                    = some (m, membersRestChars (ind + 2) ms ++
                      '\n' :: (nSpaces ind ++ '\x7d' :: rest)) := by
                  obtain ⟨f2, rfl⟩ : ∃ f2, f = f2 + 1 := ⟨f - 1, by omega⟩
                  rw [show ('\n' :: (nSpaces (ind + 2) ++
                      (memberChars (ind + 2) m ++ (membersRestChars (ind + 2) ms ++
                        '\n' :: (nSpaces ind ++ '\x7d' :: rest)))))
                      = ('\n' :: nSpaces (ind + 2)) ++
                        (memberChars (ind + 2) m ++ (membersRestChars (ind + 2) ms ++
                          '\n' :: (nSpaces ind ++ '\x7d' :: rest))) from by simp]
                  rw [parseMember_wsPrefix _ _ _ (wsNlSpaces (ind + 2))]
                  exact ihM (ind + 2) m _ (by omega) (headFails_membersRest _ ms _)
                simp only [hPM, ihO ind ms rest (by omega : sizeMembers ms ≤ f)]
                split
                · rename_i x heq
                  injection heq with h1 h2
                  exact absurd h1 (by decide)
                · rfl
      · -- the member reader
        intro ind m rest hsz hrest
        obtain ⟨k, v⟩ := m
        have hv := sizeVal_pos v
        simp only [memberChars, quoteChars, List.cons_append, List.append_assoc,
          List.singleton_append, List.nil_append]
        simp only [parseMember, dropWhileConsNot (show jsonWs '"' = false from rfl),
          parseStrBody_quoted]
        simp only [dropWhileConsNot (show jsonWs ':' = false from rfl)]
        have hPV : parseVal f (' ' :: (stringifyChars ind v ++ rest))
            = some (v, rest) := by
          obtain ⟨f2, rfl⟩ : ∃ f2, f = f2 + 1 :=
            ⟨f - 1, by simp only [sizeVal] at hsz; omega⟩
          rw [show (' ' :: (stringifyChars ind v ++ rest))
              = [' '] ++ (stringifyChars ind v ++ rest) from by simp]
          rw [parseVal_wsPrefix _ _ _ (by intro c hc; simp at hc; subst hc; rfl)]
          refine ihP ind v rest ?_ hrest
          simp only [sizeVal] at hsz
          omega
        simp only [hPV, stringMkData]
      · -- the element-list reader
        intro ind es rest hsz
        cases es with
        | nil =>
            have hd : List.dropWhile jsonWs ('\n' :: (nSpaces ind ++ ']' :: rest))
                = ']' :: rest := by
              rw [dropWhileNlSpaces, dropWhileConsNot (show jsonWs ']' = false from rfl)]
            simp only [elemsRestChars, List.nil_append]
            simp only [parseElems, hd]
        | cons e es2 =>
            have he := sizeVal_pos e
            have hes := sizeElems_pos es2
            have hsz' : sizeVal e + sizeElems es2 ≤ f + 1 := by
              simpa [sizeElems] using hsz
            simp only [elemsRestChars, List.cons_append, List.append_assoc,
              List.nil_append]
            simp only [parseElems, dropWhileConsNot (show jsonWs ',' = false from rfl)]
            have hPV : parseVal f ('\n' :: (nSpaces (ind + 2) ++
                (stringifyChars (ind + 2) e ++ (elemsRestChars (ind + 2) es2 ++
                  '\n' :: (nSpaces ind ++ ']' :: rest)))))
                = some (e, elemsRestChars (ind + 2) es2 ++
                  '\n' :: (nSpaces ind ++ ']' :: rest)) := by
              obtain ⟨f2, rfl⟩ : ∃ f2, f = f2 + 1 := ⟨f - 1, by omega⟩
              rw [show ('\n' :: (nSpaces (ind + 2) ++
                  (stringifyChars (ind + 2) e ++ (elemsRestChars (ind + 2) es2 ++
                    '\n' :: (nSpaces ind ++ ']' :: rest)))))
                  = ('\n' :: nSpaces (ind + 2)) ++
                    (stringifyChars (ind + 2) e ++ (elemsRestChars (ind + 2) es2 ++
                      '\n' :: (nSpaces ind ++ ']' :: rest))) from by simp]
              rw [parseVal_wsPrefix _ _ _ (wsNlSpaces (ind + 2))]
              exact ihP (ind + 2) e _ (by omega) (headFails_elemsRest _ es2 _)
            simp only [hPV]
            simp only [ihE ind es2 rest (by omega)]
      · -- the member-list reader
        intro ind ms rest hsz
        cases ms with
        | nil =>
            have hd : List.dropWhile jsonWs ('\n' :: (nSpaces ind ++ '\x7d' :: rest))
                = '\x7d' :: rest := by
              rw [dropWhileNlSpaces, dropWhileConsNot (show jsonWs '\x7d' = false from rfl)]
            simp only [membersRestChars, List.nil_append]
            simp only [parseMembers, hd]
        | cons m ms2 =>
            have hm := sizeVal_pos m.2
            have hms := sizeMembers_pos ms2
            have hsz' : 1 + sizeVal m.2 + sizeMembers ms2 ≤ f + 1 := by
              simpa [sizeMembers] using hsz
            simp only [membersRestChars, List.cons_append, List.append_assoc,
              List.nil_append]
            simp only [parseMembers, dropWhileConsNot (show jsonWs ',' = false from rfl)]
            have hPM : parseMember f ('\n' :: (nSpaces (ind + 2) ++
                (memberChars (ind + 2) m ++ (membersRestChars (ind + 2) ms2 ++
                  '\n' :: (nSpaces ind ++ '\x7d' :: rest)))))
                = some (m, membersRestChars (ind + 2) ms2 ++
                  '\n' :: (nSpaces ind ++ '\x7d' :: rest)) := by
              obtain ⟨f2, rfl⟩ : ∃ f2, f = f2 + 1 := ⟨f - 1, by omega⟩
              rw [show ('\n' :: (nSpaces (ind + 2) ++
                  (memberChars (ind + 2) m ++ (membersRestChars (ind + 2) ms2 ++
                    '\n' :: (nSpaces ind ++ '\x7d' :: rest)))))
                  = ('\n' :: nSpaces (ind + 2)) ++
                    (memberChars (ind + 2) m ++ (membersRestChars (ind + 2) ms2 ++
                      '\n' :: (nSpaces ind ++ '\x7d' :: rest))) from by simp]
              rw [parseMember_wsPrefix _ _ _ (wsNlSpaces (ind + 2))]
              exact ihM (ind + 2) m _ (by omega) (headFails_membersRest _ ms2 _)
            simp only [hPM]
            simp only [ihO ind ms2 rest (by omega)]

/-- Quoted strings occupy at least their two quotes. -/
theorem quoteChars_length (s : String) : 2 ≤ (quoteChars s).length := by
  simp [quoteChars]

mutual

/-- A value's structural size is dominated by its serialized length. -/
theorem sizeVal_le_length (ind : Nat) (j : Json) :
    sizeVal j ≤ (stringifyChars ind j).length := by
  cases j with
  | null => simp [sizeVal, stringifyChars]
  | bool b => cases b <;> simp [sizeVal, stringifyChars]
  | num i =>
      simp only [sizeVal, stringifyChars, numChars]
      by_cases h : i < 0
      · simp [h]
      · simp only [if_neg h]
        exact List.length_pos.mpr (natChars_ne_nil i.toNat)
  | str s =>
      simp only [sizeVal, stringifyChars]
      exact Nat.le_trans (by omega) (quoteChars_length s)
  | arr es =>
      cases es with
      | nil => simp [sizeVal, sizeElems, stringifyChars]
      | cons e es =>
          have h1 := sizeVal_le_length (ind + 2) e
          have h2 := sizeElems_le_length (ind + 2) es
          simp [sizeVal, sizeElems, stringifyChars]
          omega
  | obj ms =>
      cases ms with
      | nil => simp [sizeVal, sizeMembers, stringifyChars]
      | cons m ms =>
          have h1 := sizeVal_le_length (ind + 2) m.2
          have h2 := sizeMembers_le_length (ind + 2) ms
          have h3 := quoteChars_length m.1
          simp [sizeVal, sizeMembers, stringifyChars, memberChars]
          omega

/-- An element tail's size is dominated by its serialized length plus one. -/
theorem sizeElems_le_length (ind : Nat) (es : List Json) :
    sizeElems es ≤ (elemsRestChars ind es).length + 1 := by
  cases es with
  | nil => simp [sizeElems, elemsRestChars]
  | cons e es =>
      have h1 := sizeVal_le_length ind e
      have h2 := sizeElems_le_length ind es
      simp [sizeElems, elemsRestChars]
      omega

/-- A member tail's size is dominated by its serialized length plus one. -/
theorem sizeMembers_le_length (ind : Nat) (ms : List (String × Json)) :
    sizeMembers ms ≤ (membersRestChars ind ms).length + 1 := by
  cases ms with
  | nil => simp [sizeMembers, membersRestChars]
  | cons m ms =>
      have h1 := sizeVal_le_length ind m.2
      have h2 := sizeMembers_le_length ind ms
      have h3 := quoteChars_length m.1
      simp [sizeMembers, membersRestChars, memberChars]
      omega

end

/-- Round trip: reading back a pretty-printed value recovers it exactly. -/
theorem jsonParse_jsonStringify (j : Json) : jsonParse (jsonStringify j) = some j := by
  have hfuel : sizeVal j ≤ (stringifyChars 0 j).length + 1 :=
    Nat.le_succ_of_le (sizeVal_le_length 0 j)
  have hP := (parseRound ((stringifyChars 0 j).length + 1)).1 0 j [] hfuel rfl
  rw [List.append_nil] at hP
  have hP2 : parseVal ((jsonStringify j).length + 1) (jsonStringify j).data
      = some (j, []) := hP
  unfold jsonParse
  rw [hP2]
  rfl

/-! ## Claim theorems -/

/-- C2. The current (variant b) validator accepts exactly the non-null
objects carrying a `url` field whose value is a string with non-whitespace
content after trimming; in particular it accepts
`{"url": "https://example.com"}` and rejects `null`, `{}`, `{"url": ""}`
and `{"url": "   "}`. -/
theorem validateData_b_spec :
    (∀ j : Json, validateData j = true ↔
      ∃ fields s, j = Json.obj fields ∧ lookupField fields "url" = some (Json.str s) ∧
        0 < (jsTrim s).length) ∧
    validateData (Json.obj [("url", Json.str "https://example.com")]) = true ∧
    validateData Json.null = false ∧
    validateData (Json.obj []) = false ∧
    validateData (Json.obj [("url", Json.str "")]) = false ∧
    validateData (Json.obj [("url", Json.str "   ")]) = false := by
  refine ⟨?_, by decide, rfl, rfl, by decide, by decide⟩
  intro j
  cases j with
  | null => simp [validateData, jsIsObjectType, jsIsNull]
  | bool b => simp [validateData, jsIsObjectType, jsIsNull]
  | num n => simp [validateData, jsIsObjectType, jsIsNull]
  | str s => simp [validateData, jsIsObjectType, jsIsNull]
  | arr es => simp [validateData, jsIsObjectType, jsIsNull, getField]
  | obj fields =>
      simp only [validateData, jsIsObjectType, jsIsNull, Bool.not_true, Bool.false_or,
        if_neg (by simp : ¬(false || false) = true), getField]
      cases hl : lookupField fields "url" with
      | none => simp [hl]
      | some v => cases v <;> simp [hl, decide_eq_true_eq]

/-- C7 counterexample. The variant-(a) validator does not reject arrays:
`typeof [] === 'object'` holds and `[]` is not `null`, so it accepts the
empty array, contradicting the claim that every JSON array is rejected. -/
theorem validateDataVariantA_accepts_array : validateDataVariantA (Json.arr []) = true := rfl

/-- C7 amended. The variant-(a) validator accepts any value of JavaScript
object type — arrays included — and rejects exactly `null` and the
non-object primitives. -/
theorem validateDataVariantA_spec :
    validateDataVariantA Json.null = false ∧
    (∀ b, validateDataVariantA (Json.bool b) = false) ∧
    (∀ n, validateDataVariantA (Json.num n) = false) ∧
    (∀ s, validateDataVariantA (Json.str s) = false) ∧
    (∀ es, validateDataVariantA (Json.arr es) = true) ∧
    (∀ fields, validateDataVariantA (Json.obj fields) = true) :=
  ⟨rfl, fun _ => rfl, fun _ => rfl, fun _ => rfl, fun _ => rfl, fun _ => rfl⟩

/-- C8 counterexample. The variant-(a) validator returns true, not false,
on an object missing every required field: `validateDataVariantA {} = true`,
so the claim that both variants reject objects missing required fields
fails for variant (a) (which likewise accepts arrays). -/
theorem validateDataVariantA_accepts_empty_obj :
    validateDataVariantA (Json.obj []) = true := rfl

/-- C8 amended. Both validators are total Boolean functions — in the
embedding they return a Boolean on every JSON value, never throwing — and
rejection behaves as follows: both variants reject `null` and the
non-object primitives; variant (b) additionally rejects arrays and objects
without a `url` field, which variant (a) accepts. -/
theorem validators_total_spec :
    (∀ j : Json, validateData j = true ∨ validateData j = false) ∧
    (∀ j : Json, validateDataVariantA j = true ∨ validateDataVariantA j = false) ∧
    (validateData Json.null = false ∧ validateDataVariantA Json.null = false) ∧
    (∀ b, validateData (Json.bool b) = false ∧ validateDataVariantA (Json.bool b) = false) ∧
    (∀ n, validateData (Json.num n) = false ∧ validateDataVariantA (Json.num n) = false) ∧
    (∀ s, validateData (Json.str s) = false ∧ validateDataVariantA (Json.str s) = false) ∧
    (∀ es, validateData (Json.arr es) = false) ∧
    (∀ fields, lookupField fields "url" = none → validateData (Json.obj fields) = false) := by
  refine ⟨fun j => ?_, fun j => ?_, ⟨rfl, rfl⟩, fun b => ⟨rfl, rfl⟩, fun n => ⟨rfl, rfl⟩,
    fun s => ⟨rfl, rfl⟩, fun es => rfl, fun fields hl => ?_⟩
  · cases h : validateData j
    · exact Or.inr rfl
    · exact Or.inl rfl
  · cases h : validateDataVariantA j
    · exact Or.inr rfl
    · exact Or.inl rfl
  · simp [validateData, jsIsObjectType, jsIsNull, getField, hl]

/-- C8 witness. The amended statement applied at the empty object, whose
`url` lookup is `none`. -/
theorem validators_total_spec_witness :
    lookupField [] "url" = none ∧ validateData (Json.obj []) = false :=
  ⟨rfl, validators_total_spec.2.2.2.2.2.2.2 [] rfl⟩

/-- C1. The `POST /process` pipeline has exactly the four terminal
translations: valid body and successful save give `200 "Success"`;
an invalid body gives `400 {error: Invalid input data}` via the error
handler; a failing save (which always surfaces as the opaque
`Failed to save data` error) gives `500 {error: Failed to save the
provided data}`; and the error handler sends any other error message as
`500 {error: Internal Server Error}`. -/
theorem handleProcess_outcomes (body : Json) (folder : String) (now : DateTime)
    (env : FsEnv) (fs : FileSys) :
    (validateData body = true → (saveData body folder now env fs).result = Except.ok () →
      handleProcess body folder now env fs
        = ((200, RespBody.text "Success"), (saveData body folder now env fs).fs, true)) ∧
    (validateData body = false →
      handleProcess body folder now env fs
        = ((400, RespBody.errObj "Invalid input data"), fs, false)) ∧
    (validateData body = true →
      (saveData body folder now env fs).result = Except.error "Failed to save data" →
      handleProcess body folder now env fs
        = ((500, RespBody.errObj "Failed to save the provided data"),
            (saveData body folder now env fs).fs, true)) ∧
    (∀ msg, msg ≠ "Data is not in the correct format" → msg ≠ "Failed to save data" →
      errorHandler msg = (500, RespBody.errObj "Internal Server Error")) := by
  refine ⟨fun hv hs => ?_, fun hv => ?_, fun hv hs => ?_, fun msg h1 h2 => ?_⟩
  · simp [handleProcess, processRequest, hv, hs]
  · simp [handleProcess, processRequest, hv, errorHandler]
  · simp [handleProcess, processRequest, hv, hs, errorHandler]
  · simp [errorHandler, h1, h2]

/-- C1 witness. The four branches exercised at concrete inputs: a valid
body under a healthy file system, the empty object, a valid body under a
failing `mkdir`, and an unclassified error message. -/
theorem handleProcess_outcomes_witness :
    (validateData (Json.obj [("url", Json.str "https://example.com")]) = true ∧
      (saveData (Json.obj [("url", Json.str "https://example.com")]) "./data"
          ⟨12, 10, 2026, 13, 5, 9, 7⟩ ⟨none, none⟩ ⟨[], []⟩).result = Except.ok () ∧
      handleProcess (Json.obj [("url", Json.str "https://example.com")]) "./data"
          ⟨12, 10, 2026, 13, 5, 9, 7⟩ ⟨none, none⟩ ⟨[], []⟩
        = ((200, RespBody.text "Success"),
            (saveData (Json.obj [("url", Json.str "https://example.com")]) "./data"
              ⟨12, 10, 2026, 13, 5, 9, 7⟩ ⟨none, none⟩ ⟨[], []⟩).fs, true)) ∧
    (validateData (Json.obj []) = false ∧
      handleProcess (Json.obj []) "./data" ⟨12, 10, 2026, 13, 5, 9, 7⟩ ⟨none, none⟩ ⟨[], []⟩
        = ((400, RespBody.errObj "Invalid input data"), ⟨[], []⟩, false)) ∧
    (handleProcess (Json.obj [("url", Json.str "https://example.com")]) "./data"
        ⟨12, 10, 2026, 13, 5, 9, 7⟩ ⟨some "EEXIST: file exists", none⟩ ⟨[], []⟩
      = ((500, RespBody.errObj "Failed to save the provided data"),
          (saveData (Json.obj [("url", Json.str "https://example.com")]) "./data"
            ⟨12, 10, 2026, 13, 5, 9, 7⟩ ⟨some "EEXIST: file exists", none⟩ ⟨[], []⟩).fs, true)) ∧
    errorHandler "boom" = (500, RespBody.errObj "Internal Server Error") := by
  refine ⟨⟨by decide, rfl, ?_⟩, ⟨rfl, ?_⟩, ?_, ?_⟩
  · exact (handleProcess_outcomes _ _ _ _ _).1 (by decide) rfl
  · exact (handleProcess_outcomes _ _ _ _ _).2.1 rfl
  · exact (handleProcess_outcomes _ _ _ _ _).2.2.1 (by decide) rfl
  · exact (handleProcess_outcomes (Json.obj []) "./data" ⟨12, 10, 2026, 13, 5, 9, 7⟩
      ⟨none, none⟩ ⟨[], []⟩).2.2.2 "boom" (by decide) (by decide)

/-- C4. A body the validator rejects makes the handler raise the
malformed-input error, never call the persister, and leave the file
system untouched, and the pipeline answers `400 {error: Invalid input
data}`. -/
theorem rejected_body_never_persists (body : Json) (folder : String) (now : DateTime)
    (env : FsEnv) (fs : FileSys) (h : validateData body = false) :
    (processRequest body folder now env fs).outcome
        = Except.error "Data is not in the correct format" ∧
    (processRequest body folder now env fs).saveCalled = false ∧
    (processRequest body folder now env fs).fs = fs ∧
    handleProcess body folder now env fs
      = ((400, RespBody.errObj "Invalid input data"), fs, false) := by
  refine ⟨?_, ?_, ?_, ?_⟩ <;> simp [processRequest, handleProcess, errorHandler, h]

/-- C4 witness. The rejection path at the empty object. -/
theorem rejected_body_never_persists_witness :
    validateData (Json.obj []) = false ∧
    (processRequest (Json.obj []) "./data" ⟨12, 10, 2026, 13, 5, 9, 7⟩ ⟨none, none⟩
        ⟨[], []⟩).saveCalled = false :=
  ⟨rfl, (rejected_body_never_persists (Json.obj []) "./data" ⟨12, 10, 2026, 13, 5, 9, 7⟩
      ⟨none, none⟩ ⟨[], []⟩ rfl).2.1⟩

/-- C5. Either file-system failure inside `saveData` — directory creation
or the file write, whatever the underlying message — logs the folder path
and the underlying message and surfaces as the single opaque error
`Failed to save data`; when directory creation fails the write is never
reached and the file system is untouched, and a write failure leaves the
file list unchanged. -/
theorem saveData_opaque_failure (data : Json) (folder : String) (now : DateTime)
    (fs : FileSys) :
    (∀ msg env, env.mkdirError = some msg →
      (saveData data folder now env fs).result = Except.error "Failed to save data" ∧
      (saveData data folder now env fs).fs = fs ∧
      (saveData data folder now env fs).wroteFile = false ∧
      (saveData data folder now env fs).logs
        = [s!"[SAVE ERROR] Check folder \"{folder}\" or permissions.",
           s!"[SAVE ERROR] {msg}"]) ∧
    (∀ msg env, env.mkdirError = none → env.writeError = some msg →
      (saveData data folder now env fs).result = Except.error "Failed to save data" ∧
      (saveData data folder now env fs).fs.files = fs.files ∧
      (saveData data folder now env fs).wroteFile = false ∧
      (saveData data folder now env fs).logs
        = [s!"[SAVE ERROR] Check folder \"{folder}\" or permissions.",
           s!"[SAVE ERROR] {msg}"]) := by
  constructor
  · intro msg env hm
    cases env with
    | mk mke wre => cases hm; simp [saveData]
  · intro msg env hm hw
    cases env with
    | mk mke wre => cases hm; cases hw; simp [saveData]

/-- C5 witness. Both failure sites at concrete error messages. -/
theorem saveData_opaque_failure_witness :
    ((⟨some "EACCES: permission denied", none⟩ : FsEnv).mkdirError
        = some "EACCES: permission denied" ∧
      (saveData (Json.obj []) "./data" ⟨12, 10, 2026, 13, 5, 9, 7⟩
          ⟨some "EACCES: permission denied", none⟩ ⟨[], []⟩).wroteFile = false) ∧
    ((⟨none, some "ENOSPC: no space left on device"⟩ : FsEnv).writeError
        = some "ENOSPC: no space left on device" ∧
      (saveData (Json.obj []) "./data" ⟨12, 10, 2026, 13, 5, 9, 7⟩
          ⟨none, some "ENOSPC: no space left on device"⟩ ⟨[], []⟩).result
        = Except.error "Failed to save data") :=
  ⟨⟨rfl, ((saveData_opaque_failure (Json.obj []) "./data" ⟨12, 10, 2026, 13, 5, 9, 7⟩
      ⟨[], []⟩).1 "EACCES: permission denied" _ rfl).2.2.1⟩,
   ⟨rfl, ((saveData_opaque_failure (Json.obj []) "./data" ⟨12, 10, 2026, 13, 5, 9, 7⟩
      ⟨[], []⟩).2 "ENOSPC: no space left on device" _ rfl rfl).1⟩⟩

/-- C6. On a healthy file system, `saveData` into a fresh empty directory
creates exactly one file whose complete contents are the 2-space
pretty-printed JSON serialization of the payload, and reading those
contents back as JSON recovers a value equal to the payload. The
well-formedness hypothesis records that the payload is the image of a
JavaScript value, whose objects cannot repeat a key. -/
theorem saveData_roundtrip (data : Json) (folder : String) (now : DateTime)
    (fs : FileSys) (hwf : data.wf = true) (hfresh : fs.files = []) :
    (saveData data folder now ⟨none, none⟩ fs).result = Except.ok () ∧
    (saveData data folder now ⟨none, none⟩ fs).fs.files
      = [(pathJoin folder (chosenFileName data now), jsonStringify data)] ∧
    jsonParse (jsonStringify data) = some data := by
  refine ⟨rfl, ?_, jsonParse_jsonStringify data⟩
  simp [saveData, hfresh, writeFileAt]

/-- C6 witness. A concrete payload saved into an empty directory and read
back. -/
theorem saveData_roundtrip_witness :
    (Json.obj [("url", Json.str "https://example.com"), ("n", Json.num (-42))]).wf = true ∧
    (FileSys.mk [] []).files = [] ∧
    jsonParse (jsonStringify
        (Json.obj [("url", Json.str "https://example.com"), ("n", Json.num (-42))]))
      = some (Json.obj [("url", Json.str "https://example.com"), ("n", Json.num (-42))]) :=
  ⟨rfl, rfl,
    (saveData_roundtrip (Json.obj [("url", Json.str "https://example.com"),
        ("n", Json.num (-42))]) "./data" ⟨12, 10, 2026, 13, 5, 9, 7⟩ ⟨[], []⟩
      rfl rfl).2.2⟩

/-- C3. Evaluation of the file-name logic at the failing input: with no
override present, the synthesized name for 2026-10-12 13:05:09.007 carries
a four-digit year — `toLocaleDateString('en-GB')` renders `DD/MM/YYYY` —
so its date segment has 10 characters where the documented `DD-MM-YY`
pattern would have 8; the separator, `HH-mm-ss` clock part and 3-digit
zero-padded milliseconds are as documented, and a non-blank string
override is used verbatim, untrimmed. -/
theorem genFileName_four_digit_year :
    genFileName ⟨12, 10, 2026, 13, 5, 9, 7⟩ = "data-12-10-2026_13-05-09-007.json" ∧
    (slashesToDashes (toLocaleDateStringEnGB ⟨12, 10, 2026, 13, 5, 9, 7⟩)).length = 10 ∧
    chosenFileName (Json.obj [("fileData",
        Json.obj [("fileName", Json.str "  evt.json ")])]) ⟨12, 10, 2026, 13, 5, 9, 7⟩
      = "  evt.json " ∧
    chosenFileName (Json.obj []) ⟨1, 2, 2026, 3, 4, 5, 67⟩
      = "data-01-02-2026_03-04-05-067.json" := by
  refine ⟨?_, ?_, ?_, ?_⟩ <;> decide

/-- C9. `getPort` returns the parsed value exactly when `parseInt`
yields an integer in `[1024, 65535]`; every `NaN` or out-of-range parse
throws `Invalid PORT_NUMBER`; and with `PORT_NUMBER` unset the startup
`PORT` computation falls back to the default and yields 3000. -/
theorem getPort_spec :
    (∀ s p, getPort s = Except.ok p ↔
      (jsParseInt10 s = some p ∧ 1024 ≤ p ∧ p ≤ 65535)) ∧
    (∀ s, jsParseInt10 s = none →
      getPort s = Except.error s!"Invalid PORT_NUMBER: {s}") ∧
    (∀ s p, jsParseInt10 s = some p → (p < 1024 ∨ p > 65535) →
      getPort s = Except.error s!"Invalid PORT_NUMBER: {s}") ∧
    (∀ env : String → Option String, env "PORT_NUMBER" = none →
      PORT env = Except.ok 3000) := by
  refine ⟨fun s p => ?_, fun s hn => ?_, fun s p hp hout => ?_, fun env he => ?_⟩
  · unfold getPort
    cases hn : jsParseInt10 s with
    | none => simp
    | some q =>
        by_cases hq : q < 1024 ∨ q > 65535
        · simp only [if_pos hq]
          constructor
          · intro h; exact absurd h (by simp)
          · rintro ⟨hqp, h1, h2⟩
            injection hqp with hqp
            omega
        · simp only [if_neg hq]
          constructor
          · rintro h
            injection h with h
            exact ⟨by rw [h], by omega, by omega⟩
          · rintro ⟨hqp, h1, h2⟩
            injection hqp with hqp
            rw [hqp]
  · simp [getPort, hn]
  · simp [getPort, hp, if_pos hout]
  · simp only [PORT, getEnvVar, envTruthy, he]
    rfl

/-- C9 witness. The characterization at `"3000"`, a `NaN` input, an
out-of-range input, and an empty environment. -/
theorem getPort_spec_witness :
    getPort "3000" = Except.ok 3000 ∧
    jsParseInt10 "abc" = none ∧
    getPort "abc" = Except.error "Invalid PORT_NUMBER: abc" ∧
    getPort "99999" = Except.error "Invalid PORT_NUMBER: 99999" ∧
    PORT (fun _ => none) = Except.ok 3000 := by
  refine ⟨?_, rfl, ?_, ?_, ?_⟩
  · exact (getPort_spec.1 "3000" 3000).mpr ⟨by decide, by decide, by decide⟩
  · exact getPort_spec.2.1 "abc" rfl
  · exact getPort_spec.2.2.1 "99999" 99999 (by decide) (by decide)
  · exact getPort_spec.2.2.2 (fun _ => none) rfl

/-- C10. `getEnvVar` treats a variable set to the empty string like an
unset one: with a default supplied the default is returned, and with no
default the `Environment variable <key> is not set` error is thrown. -/
theorem getEnvVar_empty_as_unset (env : String → Option String) (key d : String)
    (h : env key = some "") :
    getEnvVar env key (some d) = Except.ok d ∧
    getEnvVar env key none = Except.error s!"Environment variable {key} is not set" := by
  constructor <;> simp [getEnvVar, envTruthy, h]

/-- C10 witness. A blank `DATA_LOCATION` falls back to `./data`. -/
theorem getEnvVar_empty_as_unset_witness :
    (fun k => if k = "DATA_LOCATION" then some "" else none) "DATA_LOCATION" = some "" ∧
    getEnvVar (fun k => if k = "DATA_LOCATION" then some "" else none) "DATA_LOCATION"
      (some "./data") = Except.ok "./data" :=
  ⟨by decide, (getEnvVar_empty_as_unset (fun k => if k = "DATA_LOCATION" then some "" else none)
      "DATA_LOCATION" "./data" (by decide)).1⟩
